import Mathlib

/-!
Verification development for the ledger service (`src/ledger-api`):
a shallow embedding in Lean 4 of the allocation engine, the balance
calculators, the reconciliation path, the audit obfuscation hook and
the transaction-creation route, together with theorems about the
behaviour of those functions.

Monetary amounts (`decimal.Decimal` in the source) are embedded as
rationals (`ℚ`); the 12-decimal quantization step of the allocation
engine is modelled exactly.  Fallible code is embedded with `Except`
or with explicit result pairs.
-/

namespace Ledger

/-! ## Decimal quantization

`AllocationService.calculate_allocations` quantizes with
`Decimal("0.000000000001")` and `rounding=ROUND_DOWN`.  `ROUND_DOWN`
truncates toward zero. -/

/-- The quantization unit used by the allocation engine: `10⁻¹²`. -/
def quantum : ℚ := 1 / 10 ^ 12

/-- Truncation of a rational toward zero, the semantics of `ROUND_DOWN`
in Python `decimal`. -/
def truncQ (x : ℚ) : ℤ :=
  if 0 ≤ x then ⌊x⌋ else ⌈x⌉

/-- Embedding of `x.quantize(Decimal("0.000000000001"), rounding=ROUND_DOWN)`:
truncate toward zero to an integer multiple of `10⁻¹²`. -/
def quantizeRoundDown (x : ℚ) : ℚ :=
  (truncQ (x * 10 ^ 12) : ℚ) / 10 ^ 12

/-! ## Decimal string parsing

`calculate_allocations` calls `Decimal(parts[1].strip())` on the
threshold text of a condition string.  We embed the conversion of a
finite numeric literal (optional sign, digits, optional fraction,
optional exponent) into a `DecLit`; a string that is not of this shape
makes CPython raise `decimal.InvalidOperation` — embedded as `none`.
(Non-finite literals such as `"NaN"` do not occur in the
configurations considered here and are not modelled.) -/

/-- Numeric value of a list of decimal digit characters. -/
def digitsVal (cs : List Char) : ℕ :=
  cs.foldl (fun a c => a * 10 + (c.toNat - 48)) 0

/-- A parsed finite decimal literal
`±(intPart + fracPart / 10^fracLen) × 10^exp`. -/
structure DecLit where
  negative : Bool
  intPart : ℕ
  fracPart : ℕ
  fracLen : ℕ
  exp : ℤ
deriving DecidableEq, Repr

/-- Rational value denoted by a parsed decimal literal. -/
def DecLit.toRat (d : DecLit) : ℚ :=
  (if d.negative then -1 else 1) *
    ((d.intPart : ℚ) + (d.fracPart : ℚ) / 10 ^ d.fracLen) * (10 : ℚ) ^ d.exp

/-- Parse the optional exponent suffix (`e`/`E`, optional sign, digits)
that may close a decimal literal; the whole rest of the input must be
consumed.  Returns `none` when the suffix is malformed. -/
def parseExponent : List Char → Option ℤ
  | [] => some 0
  | c :: rest =>
    if c = 'e' ∨ c = 'E' then
      let (sgn, ds) : ℤ × List Char :=
        match rest with
        | '+' :: r => (1, r)
        | '-' :: r => (-1, r)
        | r => (1, r)
      if ds ≠ [] ∧ ds.all Char.isDigit then some (sgn * digitsVal ds) else none
    else none

/-- Embedding of `Decimal(s)` for a finite numeric literal `s` (already
stripped of surrounding whitespace): returns the parsed literal, or
`none` when CPython would raise `decimal.InvalidOperation`. -/
def parseDecimal (s : String) : Option DecLit :=
  let cs := s.data
  let (neg, cs1) : Bool × List Char :=
    match cs with
    | '+' :: r => (false, r)
    | '-' :: r => (true, r)
    | r => (false, r)
  let intDigits := cs1.takeWhile Char.isDigit
  let rest1 := cs1.dropWhile Char.isDigit
  match rest1 with
  | '.' :: rest2 =>
    let fracDigits := rest2.takeWhile Char.isDigit
    let rest3 := rest2.dropWhile Char.isDigit
    if intDigits = [] ∧ fracDigits = [] then none
    else
      (parseExponent rest3).map fun e =>
        ⟨neg, digitsVal intDigits, digitsVal fracDigits, fracDigits.length, e⟩
  | rest2 =>
    if intDigits = [] then none
    else
      (parseExponent rest2).map fun e =>
        ⟨neg, digitsVal intDigits, 0, 0, e⟩

/-! ## Condition evaluation

`calculate_allocations` evaluates an optional condition string on each
destination of the allocation config (source lines 79–97).  It supports
`"amount > T"` and `"amount < T"`: the destination is dropped
(`continue`) when the parent amount fails the comparison.  The
`except (ValueError, IndexError)` clause does not catch the
`decimal.InvalidOperation` raised by `Decimal` on a malformed
threshold, so that exception escapes the function — modelled by
`ConditionOutcome.raised`. -/

/-- Splitting a character list on a separator character, the semantics
of Python `str.split` with a one-character separator. -/
def splitOnChar (sep : Char) : List Char → List (List Char)
  | [] => [[]]
  | c :: rest =>
    if c = sep then [] :: splitOnChar sep rest
    else
      match splitOnChar sep rest with
      | [] => [[c]]
      | h :: t => (c :: h) :: t

/-- Python `str.strip()` on a character list. -/
def stripChars (cs : List Char) : List Char :=
  ((cs.dropWhile Char.isWhitespace).reverse.dropWhile Char.isWhitespace).reverse

/-- Structural analysis of a condition string: either it is not a
supported `amount`-comparison (no action is taken and the destination
stays), or it is `amount > T` / `amount < T` with the parse result of
the threshold text `T`. -/
inductive ParsedCondition where
  /-- The string triggers no `continue` and no exception (wrong number
  of split parts, or left-hand side other than `amount`, or no
  comparison character at all). -/
  | keepAlways
  /-- An `amount` comparison: `gt = true` for `>`, `false` for `<`;
  `threshold = none` when `Decimal` would raise on the threshold text. -/
  | cmp (gt : Bool) (threshold : Option DecLit)
deriving DecidableEq, Repr

/-- String-level part of the condition handling of
`calculate_allocations` (source lines 83–94): split on the comparison
character, check the left-hand side is `amount` up to case and
whitespace, parse the threshold. -/
def parseCondition (s : String) : ParsedCondition :=
  let cs := s.data
  if cs.contains '>' then
    match splitOnChar '>' cs with
    | [lhs, rhs] =>
      if (stripChars lhs).map Char.toLower = "amount".data then
        .cmp true (parseDecimal ⟨stripChars rhs⟩)
      else .keepAlways
    | _ => .keepAlways
  else if cs.contains '<' then
    match splitOnChar '<' cs with
    | [lhs, rhs] =>
      if (stripChars lhs).map Char.toLower = "amount".data then
        .cmp false (parseDecimal ⟨stripChars rhs⟩)
      else .keepAlways
    | _ => .keepAlways
  else .keepAlways

/-- Outcome of evaluating one destination's optional condition. -/
inductive ConditionOutcome where
  /-- The destination stays in the applicable list. -/
  | keep
  /-- The destination is skipped (`continue`). -/
  | drop
  /-- `decimal.InvalidOperation` escapes `calculate_allocations`. -/
  | raised
deriving DecidableEq, Repr

/-- Embedding of the per-destination condition handling of
`calculate_allocations` (source lines 79–97), evaluated against the
parent `amount`.  `None` and the empty string are falsy in
`if condition:` and leave the destination in place. -/
def evalCondition (amount : ℚ) : Option String → ConditionOutcome
  | none => .keep
  | some s =>
    if s = "" then .keep
    else
      match parseCondition s with
      | .keepAlways => .keep
      | .cmp _ none => .raised
      | .cmp true (some lit) => if amount ≤ lit.toRat then .drop else .keep
      | .cmp false (some lit) => if lit.toRat ≤ amount then .drop else .keep

/-! ## The allocation engine (`AllocationService.calculate_allocations`) -/

/-- One destination of an allocation-rule configuration
(an entry of `rule.allocation_config`): account id, percentage,
optional condition string. -/
structure Dest where
  destination_account_id : String
  percentage : ℚ
  condition : Option String := none
deriving DecidableEq, Repr

/-- Errors that can escape `calculate_allocations`. -/
inductive AllocError where
  /-- The `ValueError` raised when the applicable percentages do not sum
  to 100 within the 0.01 tolerance; carries the offending total. -/
  | percentSum (total : ℚ)
  /-- The `decimal.InvalidOperation` raised by `Decimal` on a malformed
  condition threshold and not caught by the `except` clause. -/
  | conversionSyntax
deriving DecidableEq, Repr

/-- Embedding of the condition-filtering loop of `calculate_allocations`
(source lines 72–102): drop destinations whose condition fails, rebuild
the kept ones without their condition, propagate an uncaught
`decimal.InvalidOperation`. -/
def applicableDestinations (amount : ℚ) : List Dest → Except AllocError (List Dest)
  | [] => .ok []
  | d :: ds =>
    match evalCondition amount d.condition with
    | .raised => .error .conversionSyntax
    | .drop => applicableDestinations amount ds
    | .keep =>
      match applicableDestinations amount ds with
      | .error e => .error e
      | .ok rest =>
        .ok ({ destination_account_id := d.destination_account_id,
               percentage := d.percentage } :: rest)

/-- Sum of the percentages of a destination list (source line 105). -/
def totalPercentage (ds : List Dest) : ℚ :=
  (ds.map Dest.percentage).sum

/-- One entry of the list returned by `calculate_allocations`. -/
structure AllocEntry where
  destination_account_id : String
  percentage : ℚ
  amount : ℚ
deriving DecidableEq, Repr

/-- Embedding of the amount loop of `calculate_allocations` (source
lines 112–129): every destination but the last gets its percentage
share truncated to the quantum, the last gets
`amount - total_allocated`. -/
def allocLoop (amount : ℚ) : List Dest → ℚ → List AllocEntry
  | [], _ => []
  | [d], total =>
    [{ destination_account_id := d.destination_account_id,
       percentage := d.percentage,
       amount := amount - total }]
  | d :: d' :: ds, total =>
    let a := quantizeRoundDown (amount * d.percentage / 100)
    { destination_account_id := d.destination_account_id,
      percentage := d.percentage,
      amount := a } :: allocLoop amount (d' :: ds) (total + a)

/-- Embedding of `AllocationService.calculate_allocations` (source
lines 48–131): filter by condition, validate the percentage total with
the 0.01 tolerance, then compute the allocation amounts. -/
def calculate_allocations (amount : ℚ) (config : List Dest) :
    Except AllocError (List AllocEntry) :=
  match applicableDestinations amount config with
  | .error e => .error e
  | .ok dests =>
    let tp := totalPercentage dests
    if |tp - 100| > 1 / 100 then .error (.percentSum tp)
    else .ok (allocLoop amount dests 0)

/-! ## Schema-level percentage validation (`schemas/schemas.py`)

`AllocationConfig.percentage` is declared
`Field(..., max_digits=5, decimal_places=2, ge=0, le=100)`: pydantic
accepts a percentage only when it is between 0 and 100, has at most two
decimal places and at most five significant digits. -/

/-- Embedding of the pydantic constraints on
`AllocationConfig.percentage` (source `schemas/schemas.py` lines
72–76). -/
def allocationConfigPercentageValid (p : ℚ) : Prop :=
  0 ≤ p ∧ p ≤ 100 ∧ (p * 100).den = 1 ∧ |p| < 1000

/-! ## Ledger transactions and `execute_allocation`

`models/models.py` gives `LedgerTransaction` an account, a
`transaction_type` (`DEBIT`/`CREDIT`), an amount and a currency.
`AllocationService.execute_allocation` (source lines 133–221) builds
one source `DEBIT` and one destination `CREDIT` per allocation, all
with `currency="USD"`, and commits them. -/

/-- The fields of a `LedgerTransaction` row relevant to the embedded
functions. -/
structure LTxn where
  account_id : String
  transaction_type : String
  amount : ℚ
  currency : String
deriving DecidableEq, Repr

/-- Embedding of the transaction-building part of
`AllocationService.execute_allocation` (source lines 175–211): the
source `DEBIT` for the full amount followed by one `CREDIT` per
allocation entry, every row with `currency="USD"`. -/
def execute_allocation (amount : ℚ) (source_account_id : String)
    (config : List Dest) : Except AllocError (List LTxn) :=
  match calculate_allocations amount config with
  | .error e => .error e
  | .ok allocations =>
    .ok ({ account_id := source_account_id, transaction_type := "DEBIT",
           amount := amount, currency := "USD" } ::
      allocations.map fun a =>
        { account_id := a.destination_account_id, transaction_type := "CREDIT",
          amount := a.amount, currency := "USD" })

/-! ## Balance calculators

Two distinct balance computations appear in the source:

* `AllocationService.get_account_balance` (source `allocation.py` lines
  223–246) sums `CREDIT` minus `DEBIT` over *all* of the account's
  `LedgerTransaction` rows — the `ledger_transactions` table of
  `models/models.py` has no status column, and the function applies no
  account-type sign adjustment;
* `ReconciliationService.calculate_ledger_balance` (source
  `reconciliation.py` lines 27–72) sums signed `TransactionLine`
  amounts over `POSTED` transactions at or before an optional as-of
  date, and flips the sign for `LIABILITY`/`EQUITY`/`REVENUE`
  accounts. -/

/-- Embedding of `AllocationService.get_account_balance` (source
`allocation.py` lines 223–246): `credits - debits` over all of the
account's transactions. -/
def get_account_balance (txns : List LTxn) (account_id : String) : ℚ :=
  let ts := txns.filter fun t => t.account_id = account_id
  let credits := ((ts.filter fun t => t.transaction_type = "CREDIT").map LTxn.amount).sum
  let debits := ((ts.filter fun t => t.transaction_type = "DEBIT").map LTxn.amount).sum
  credits - debits

/-- An account row of the double-entry draft (`Account` in the source):
id and type (`ASSET`, `LIABILITY`, `EQUITY`, `REVENUE`, `EXPENSE`). -/
structure Account where
  id : String
  account_type : String
deriving DecidableEq, Repr

/-- A `TransactionLine` row: account, `DEBIT`/`CREDIT` tag, amount. -/
structure TransactionLine where
  account_id : String
  line_type : String
  amount : ℚ
deriving DecidableEq, Repr

/-- A `Transaction` row of the double-entry draft: status
(`POSTED`, …), date (as an ordinal), and its lines. -/
structure Transaction where
  status : String
  transaction_date : ℤ
  lines : List TransactionLine
deriving DecidableEq, Repr

/-- The `CASE WHEN line_type = 'DEBIT' THEN amount ELSE -amount END`
expression of the balance query. -/
def lineSigned (l : TransactionLine) : ℚ :=
  if l.line_type = "DEBIT" then l.amount else -l.amount

/-- Whether a transaction is picked up by the balance query: status
`POSTED`, and dated at or before the optional as-of date. -/
def postedAsOf (as_of : Option ℤ) (t : Transaction) : Bool :=
  decide (t.status = "POSTED") && (match as_of with
    | none => true
    | some d => decide (t.transaction_date ≤ d))

/-- Embedding of `ReconciliationService.calculate_ledger_balance`
(source `reconciliation.py` lines 27–72): look up the account, sum the
signed line amounts of its `POSTED` transactions at or before `as_of`,
flip the sign for `LIABILITY`/`EQUITY`/`REVENUE` accounts. -/
def calculate_ledger_balance (accounts : List Account)
    (txns : List Transaction) (account_id : String) (as_of : Option ℤ) :
    Except String ℚ :=
  match accounts.find? (fun a => a.id = account_id) with
  | none => .error ("Account " ++ account_id ++ " not found")
  | some account =>
    let net := ((txns.filter (postedAsOf as_of)).map fun t =>
      (((t.lines.filter fun l => l.account_id = account_id).map lineSigned)).sum).sum
    .ok (if account.account_type = "LIABILITY" ∨ account.account_type = "EQUITY"
          ∨ account.account_type = "REVENUE"
        then -net else net)

/-- The Balance Calculator contract in the spec's own words
(spec §4.3): `Σ debit.amount − Σ credit.amount` over the account's
`COMPLETED`/posted transactions at or before `as_of` for
asset/expense accounts, the flipped sign for
liability/equity/revenue accounts. -/
def specBalance (account : Account) (txns : List Transaction)
    (as_of : Option ℤ) : ℚ :=
  let posted := txns.filter (postedAsOf as_of)
  let lines := (posted.map Transaction.lines).flatten.filter
    fun l => l.account_id = account.id
  let debits := ((lines.filter fun l => l.line_type = "DEBIT").map
    TransactionLine.amount).sum
  let credits := ((lines.filter fun l => l.line_type = "CREDIT").map
    TransactionLine.amount).sum
  if account.account_type = "LIABILITY" ∨ account.account_type = "EQUITY"
      ∨ account.account_type = "REVENUE"
  then credits - debits
  else debits - credits

/-! ## Reconciliation log creation

The repository declares the `ReconciliationLog` row with
`external_balance`, `internal_balance`,
`discrepancy = external_balance - internal_balance`, a `resolved`
flag and resolution metadata (`models/reconciliation_log.py`,
`schemas/reconciliation.py`), but the service draft that writes such a
row is not among the sources: `routes/treasury.py` calls
`ReconciliationService.get_account_balance`, a method the
`ReconciliationService` in `services/reconciliation.py` does not have,
and `create_reconciliation` there fills a different schema using
settings (`AUTO_RECONCILE`, `RECONCILIATION_THRESHOLD`) that
`config.py` does not define. -/

/-- The threshold under which a freshly created reconciliation log is
auto-resolved (spec §4.5: `ε ≈ 10⁻⁶`). -/
def reconEpsilon : ℚ := 1 / 10 ^ 6

/-- The fields of a `ReconciliationLog` row
(`models/reconciliation_log.py`). -/
structure ReconciliationLogRec where
  logical_account_id : String
  external_balance : ℚ
  internal_balance : ℚ
  discrepancy : ℚ
  currency : String
  resolved : Bool
deriving DecidableEq, Repr

/-- Modelled from the spec: `create_log(account_id, external_balance,
currency)` of the Reconciliation Service (spec §4.5).  The writer of
the `ReconciliationLog` row is missing from the sources (only the
model and schema declarations are present), so the operation is
modelled from the spec's words: compute the internal balance with the
Balance Calculator, record `discrepancy = external − internal`, and
mark the log resolved exactly when `|discrepancy| < ε`.  The internal
balance is the one computed by the embedded
`calculate_ledger_balance`. -/
def create_log (accounts : List Account) (txns : List Transaction)
    (account_id : String) (external_balance : ℚ) (currency : String) :
    Except String ReconciliationLogRec :=
  match calculate_ledger_balance accounts txns account_id none with
  | .error e => .error e
  | .ok internal =>
    let d := external_balance - internal
    .ok { logical_account_id := account_id,
          external_balance := external_balance,
          internal_balance := internal,
          discrepancy := d,
          currency := currency,
          resolved := decide (|d| < reconEpsilon) }

/-! ## Sensitive-field obfuscation (`hooks/audit.py`) -/

/-- The default sensitive field names of `obfuscate_sensitive_data`
(source `hooks/audit.py` line 178). -/
def sensitiveFields : List String :=
  ["wallet_address", "private_key", "secret", "password", "token"]

/-- Embedding of the per-value transformation of
`obfuscate_sensitive_data` (source `hooks/audit.py` lines 182–188):
keep the first 4 and last 3 characters around a `"..."` sentinel when
the value is longer than 8 characters, otherwise replace the whole
value by `"***"`. -/
def obfuscateValue (value : String) : String :=
  if value.length > 8 then
    ⟨value.data.take 4⟩ ++ "..." ++ ⟨value.data.drop (value.data.length - 3)⟩
  else "***"

/-- Embedding of `obfuscate_sensitive_data` (source `hooks/audit.py`
lines 166–190) on string-valued data: every sensitive field with a
truthy (non-empty) value is replaced by its obfuscation, everything
else is copied unchanged. -/
def obfuscate_sensitive_data (data : List (String × String))
    (fields : List String) : List (String × String) :=
  data.map fun kv =>
    if kv.1 ∈ fields ∧ kv.2 ≠ "" then (kv.1, obfuscateValue kv.2) else kv

/-! ## The transaction-creation route (`routes/transactions.py`)

`create_transaction` stages the request's `LedgerTransaction` and
flushes it; when the request's status is `COMPLETED`
(case-insensitively) it runs `execute_allocation` inside the same unit
of work, rolling everything back on a `ValueError` (HTTP 400); it then
*commits* (source line 83) and only afterwards calls
`AuditHook.log_transaction_create`, which inserts the audit row and
issues *its own* commit (source `hooks/audit.py` lines 59–60).  A
failure of the audit write is caught by the generic handler (source
lines 105–110, HTTP 500) after the business data is already durable.

The unit-of-work structure is modelled by a database value holding the
committed rows and an oracle for the outcome of the audit write. -/

/-- An `AuditLog` row (the fields used by
`AuditHook.log_transaction_create`). -/
structure AuditRecord where
  entity_type : String
  entity_id : String
  action : String
deriving DecidableEq, Repr

/-- The committed state of the store: ledger transactions and audit
rows. -/
structure LedgerDB where
  transactions : List LTxn
  audit_log : List AuditRecord
deriving DecidableEq, Repr

/-- Whether the audit write (the `INSERT` plus the commit inside
`AuditHook.log_change`) succeeds or raises. -/
inductive AuditWrite where
  | ok
  | fails
deriving DecidableEq, Repr

/-- A transaction-creation request (the fields of `TransactionCreate`
used by the route). -/
structure CreateReq where
  account_id : String
  transaction_type : String
  amount : ℚ
  currency : String
  status : Option String
deriving DecidableEq, Repr

/-- Whether the request asks for a `COMPLETED` transaction: the route
tests `transaction.status and transaction.status.upper() == "COMPLETED"`
(source line 65); `None` and the empty string are falsy. -/
def reqCompleted (req : CreateReq) : Bool :=
  match req.status with
  | none => false
  | some s => s.toUpper = "COMPLETED"

/-- The tail of the route after the business rows are committed
(source line 83): the business commit is already durable; the audit
hook then runs in its own unit of work (`AuditHook.log_change`,
`hooks/audit.py` lines 59–60).  When the audit write fails, the
generic handler answers 500 (source lines 105–110) but the committed
business rows stay. -/
def commitThenAudit (db : LedgerDB) (committed : List LTxn)
    (txn_id : String) : AuditWrite → LedgerDB × Option ℕ
  | .fails =>
    ({ db with transactions := db.transactions ++ committed }, some 500)
  | .ok =>
    ({ transactions := db.transactions ++ committed,
       audit_log := db.audit_log ++ [⟨"transaction", txn_id, "CREATE"⟩] },
      none)

/-- The allocation branch of the route (source lines 64–80): no active
rule or a `ValueError` from the allocation engine rolls the whole unit
of work back (HTTP 400); otherwise `execute_allocation` commits the
staged parent together with the allocation rows and the audit hook
follows. -/
def allocationStep (db : LedgerDB) (staged : LTxn) (req : CreateReq)
    (txn_id : String) (auditW : AuditWrite) :
    Option (List Dest) → LedgerDB × Option ℕ
  | none => (db, some 400)
  | some config =>
    match execute_allocation req.amount req.account_id config with
    | .error _ => (db, some 400)
    | .ok allocTxns => commitThenAudit db (staged :: allocTxns) txn_id auditW

/-- Embedding of `create_transaction` (source `routes/transactions.py`
lines 23–110).  Returns the committed database state and the HTTP
error code, if any.  `activeRule` is the highest-priority active
allocation config for the source account (`none` when there is no
active rule, which makes `execute_allocation` raise `ValueError`).
The audit write happens after the business commit and in its own unit
of work; when it fails, the route answers 500 but the business rows
stay committed. -/
def create_transaction (db : LedgerDB) (req : CreateReq)
    (txn_id : String) (activeRule : Option (List Dest))
    (auditW : AuditWrite) : LedgerDB × Option ℕ :=
  let staged : LTxn :=
    { account_id := req.account_id, transaction_type := req.transaction_type,
      amount := req.amount, currency := req.currency }
  if reqCompleted req then allocationStep db staged req txn_id auditW activeRule
  else commitThenAudit db [staged] txn_id auditW

/-! ## Applying allocation to a parent transaction

The tests (`tests/test_allocation.py`) exercise
`AllocationEngine.apply_allocation_to_transaction`, which guards on the
parent's status and on existing children, but that engine draft is not
among the sources — `services/allocation.py` holds the
`AllocationService` draft, whose `execute_allocation` takes no parent
transaction (there is no `parent_transaction_id` or `status` column in
its `models/models.py` schema). -/

/-- A parent `LedgerTransaction` of the parent/child draft
(`models/ledger_transaction.py`): id, amount, status. -/
structure ParentTxn where
  id : String
  amount : ℚ
  status : String
deriving DecidableEq, Repr

/-- A child transaction row of the parent/child draft: parent pointer,
destination account, amount. -/
structure ChildTxn where
  parent_transaction_id : Option String
  account_id : String
  amount : ℚ
deriving DecidableEq, Repr

/-- The failures of applying allocation to a parent transaction. -/
inductive ApplyError where
  /-- `VALIDATION`: the parent is not `COMPLETED`. -/
  | notCompleted
  /-- `VALIDATION`: the parent already has child allocations. -/
  | alreadyAllocated
  /-- No active allocation rule exists for the account. -/
  | ruleNotFound
  /-- The percentage math of the rule failed. -/
  | calc (e : AllocError)
deriving DecidableEq, Repr

/-- Modelled from the spec: the child-building step of `apply(parent)`
of the Allocation Engine (spec §4.4; the
`AllocationEngine.apply_allocation_to_transaction` referenced by
`tests/test_allocation.py` is absent from the sources).  Builds one
`ALLOCATION` child per destination of the active rule, each pointing
back at the parent. -/
def buildAllocationChildren (parent : ParentTxn) :
    Option (List Dest) → Except ApplyError (List ChildTxn)
  | none => .error .ruleNotFound
  | some config =>
    match calculate_allocations parent.amount config with
    | .error e => .error (.calc e)
    | .ok allocs =>
      .ok (allocs.map fun a =>
        { parent_transaction_id := some parent.id,
          account_id := a.destination_account_id,
          amount := a.amount })

/-- Modelled from the spec: the guards of `apply(parent)` — see the
doc comment above `buildAllocationChildren` continued here.  Fails with
`VALIDATION` when the parent is not `COMPLETED`; then, and before
creating anything, queries for any existing transaction with
`parent_transaction_id = parent.id` and fails when one exists;
otherwise builds the children. -/
def apply_allocation_to_transaction (existing : List ChildTxn)
    (parent : ParentTxn) (rule : Option (List Dest)) :
    Except ApplyError (List ChildTxn) :=
  if parent.status ≠ "COMPLETED" then .error .notCompleted
  else if existing.any fun t => t.parent_transaction_id = some parent.id then
    .error .alreadyAllocated
  else buildAllocationChildren parent rule

/-! ## Lemmas about the allocation engine -/

/-- Truncation to the quantum never overshoots and loses less than one
quantum, for non-negative inputs. -/
theorem quantizeRoundDown_error_bounds (x : ℚ) (hx : 0 ≤ x) :
    0 ≤ x - quantizeRoundDown x ∧ x - quantizeRoundDown x < quantum := by
  have hN : (0 : ℚ) < 10 ^ 12 := by positivity
  have h0 : (0 : ℚ) ≤ x * 10 ^ 12 := by positivity
  have key : x - quantizeRoundDown x = Int.fract (x * 10 ^ 12) / 10 ^ 12 := by
    unfold quantizeRoundDown truncQ
    rw [if_pos h0, Int.fract]
    field_simp
  constructor
  · rw [key]
    exact div_nonneg (Int.fract_nonneg _) hN.le
  · rw [key]
    unfold quantum
    rw [div_lt_div_iff₀ hN hN, one_mul]
    have := mul_lt_mul_of_pos_right (Int.fract_lt_one (x * 10 ^ 12)) hN
    linarith

/-- On non-negative inputs, `ROUND_DOWN` truncation to the quantum is
the floor form used by the spec:
`floor((x) / q) × q`. -/
theorem quantizeRoundDown_eq_floor (x : ℚ) (hx : 0 ≤ x) :
    quantizeRoundDown x = ⌊x / quantum⌋ * quantum := by
  have h0 : (0 : ℚ) ≤ x * 10 ^ 12 := by positivity
  unfold quantizeRoundDown truncQ quantum
  rw [if_pos h0]
  have hq : x / (1 / 10 ^ 12) = x * 10 ^ 12 := by ring
  rw [hq]
  ring

/-- Helper: `dropLast` distributes over a cons with a non-empty tail. -/
theorem dropLast_cons_ne {α : Type} (a : α) (l : List α) (h : l ≠ []) :
    (a :: l).dropLast = a :: l.dropLast := by
  cases l with
  | nil => exact absurd rfl h
  | cons b t => rfl

/-- The amount loop produces one entry per destination. -/
theorem allocLoop_length (A : ℚ) :
    ∀ (ds : List Dest) (t : ℚ), (allocLoop A ds t).length = ds.length
  | [], _ => rfl
  | [_], _ => rfl
  | _ :: d' :: ds, t => by
    simp only [allocLoop, List.length_cons]
    exact congrArg Nat.succ (allocLoop_length A (d' :: ds) _)

/-- Closed form of the amount loop: every destination except the last
gets its truncated share, the last gets the amount minus everything
already allocated. -/
theorem allocLoop_eq (A : ℚ) :
    ∀ (ds : List Dest) (t : ℚ) (h : ds ≠ []),
      allocLoop A ds t =
        (ds.dropLast.map fun d =>
          ({ destination_account_id := d.destination_account_id,
             percentage := d.percentage,
             amount := quantizeRoundDown (A * d.percentage / 100) } : AllocEntry)) ++
        [{ destination_account_id := (ds.getLast h).destination_account_id,
           percentage := (ds.getLast h).percentage,
           amount := A - (t +
             ((ds.dropLast.map fun d =>
               quantizeRoundDown (A * d.percentage / 100)).sum)) }]
  | [], _, h => absurd rfl h
  | [d], t, _ => by
    simp [allocLoop]
  | d :: d' :: ds, t, _ => by
    have ih := allocLoop_eq A (d' :: ds) (t + quantizeRoundDown (A * d.percentage / 100))
      (by simp)
    have hd1 : ((d :: d' :: ds).dropLast) = d :: (d' :: ds).dropLast := rfl
    have hd2 : ((d :: d' :: ds).getLast (by simp)) = (d' :: ds).getLast (by simp) :=
      List.getLast_cons (by simp)
    simp only [allocLoop, ih, hd1, hd2, List.map_cons, List.sum_cons, List.cons_append]
    rw [add_assoc]

/-- The amounts of the amount loop telescope to `A - t`. -/
theorem allocLoop_sum (A : ℚ) :
    ∀ (ds : List Dest) (t : ℚ), ds ≠ [] →
      ((allocLoop A ds t).map AllocEntry.amount).sum = A - t
  | [], _, h => absurd rfl h
  | [d], t, _ => by simp [allocLoop]
  | d :: d' :: ds, t, _ => by
    have ih := allocLoop_sum A (d' :: ds)
      (t + quantizeRoundDown (A * d.percentage / 100)) (by simp)
    simp only [allocLoop, List.map_cons, List.sum_cons, ih]
    ring

/-- Success characterization of `calculate_allocations` for a given
applicable destination list. -/
theorem calculate_allocations_ok (A : ℚ) (config ds : List Dest)
    (hds : applicableDestinations A config = .ok ds)
    (htp : ¬ |totalPercentage ds - 100| > 1 / 100) :
    calculate_allocations A config = .ok (allocLoop A ds 0) := by
  unfold calculate_allocations
  rw [hds]
  exact if_neg htp

/-- Failure characterization of `calculate_allocations` for a given
applicable destination list: the percentage-sum `ValueError`. -/
theorem calculate_allocations_error (A : ℚ) (config ds : List Dest)
    (hds : applicableDestinations A config = .ok ds)
    (htp : |totalPercentage ds - 100| > 1 / 100) :
    calculate_allocations A config = .error (.percentSum (totalPercentage ds)) := by
  unfold calculate_allocations
  rw [hds]
  exact if_pos htp

/-- Inversion: a successful `calculate_allocations` comes from a
successful filter whose percentage total is inside the window, and is
the amount loop on those destinations. -/
theorem calculate_allocations_ok_inv (A : ℚ) (config : List Dest)
    (l : List AllocEntry)
    (hok : calculate_allocations A config = .ok l)
    (ds : List Dest)
    (hds : applicableDestinations A config = .ok ds) :
    ¬ |totalPercentage ds - 100| > 1 / 100 ∧ l = allocLoop A ds 0 := by
  unfold calculate_allocations at hok
  rw [hds] at hok
  have hok' : (if |totalPercentage ds - 100| > 1 / 100
      then Except.error (AllocError.percentSum (totalPercentage ds))
      else Except.ok (allocLoop A ds 0)) = Except.ok l := hok
  by_cases htp : |totalPercentage ds - 100| > 1 / 100
  · rw [if_pos htp] at hok'
    cases hok'
  · rw [if_neg htp] at hok'
    exact ⟨htp, ((Except.ok.injEq _ _).mp hok').symm⟩

/-- A destination kept by the condition filter carries the percentage
of one of the configured destinations. -/
theorem applicableDestinations_percent_from (A : ℚ) :
    ∀ (config ds : List Dest),
      applicableDestinations A config = .ok ds →
      ∀ d ∈ ds, ∃ c ∈ config, d.percentage = c.percentage
  | [], ds, h => by
    simp only [applicableDestinations, Except.ok.injEq] at h
    subst h
    intro d hd
    cases hd
  | c :: config, ds, h => by
    simp only [applicableDestinations] at h
    cases hev : evalCondition A c.condition with
    | raised => rw [hev] at h; cases h
    | drop =>
      rw [hev] at h
      intro d hd
      obtain ⟨c', hc', he⟩ :=
        applicableDestinations_percent_from A config ds h d hd
      exact ⟨c', List.mem_cons_of_mem _ hc', he⟩
    | keep =>
      rw [hev] at h
      cases hrec : applicableDestinations A config with
      | error e => rw [hrec] at h; cases h
      | ok rest =>
        rw [hrec] at h
        simp only [Except.ok.injEq] at h
        subst h
        intro d hd
        cases hd with
        | head => exact ⟨c, List.mem_cons_self c config, rfl⟩
        | tail _ hmem =>
          obtain ⟨c', hc', he⟩ :=
            applicableDestinations_percent_from A config rest hrec d hmem
          exact ⟨c', List.mem_cons_of_mem _ hc', he⟩

/-- Percentages stay non-negative through the condition filter. -/
theorem applicableDestinations_percent_nonneg (A : ℚ)
    (config ds : List Dest)
    (hds : applicableDestinations A config = .ok ds)
    (hp : ∀ d ∈ config, 0 ≤ d.percentage) :
    ∀ d ∈ ds, 0 ≤ d.percentage := by
  intro d hd
  obtain ⟨c, hc, he⟩ :=
    applicableDestinations_percent_from A config ds hds d hd
  rw [he]
  exact hp c hc

/-- Helper: `getLast` transported along a list equality. -/
theorem getLast_of_eq {α : Type} {l l2 : List α} (h : l = l2) (hl : l ≠ []) :
    l.getLast hl = l2.getLast (h ▸ hl) := by
  subst h
  rfl

/-- Helper: the last element of `l ++ [x]` is `x`. -/
theorem getLast_append_singleton {α : Type} (l : List α) (x : α)
    (h : l ++ [x] ≠ []) : (l ++ [x]).getLast h = x := by
  induction l with
  | nil => rfl
  | cons a t ih =>
    have h2 : t ++ [x] ≠ [] := by simp
    exact (List.getLast_cons h2).trans (ih h2)

/-- Helper: a sum of a mapped difference splits into a difference of
sums. -/
theorem list_sum_map_sub {α : Type} (l : List α) (f g : α → ℚ) :
    (l.map fun a => f a - g a).sum = (l.map f).sum - (l.map g).sum := by
  induction l with
  | nil => simp
  | cons a t ih => simp only [List.map_cons, List.sum_cons, ih]; ring

/-- Helper: a successful validation forces at least one applicable
destination (an empty list sums to 0, far outside the window). -/
theorem applicable_ne_nil_of_tp (ds : List Dest)
    (htp : ¬ |totalPercentage ds - 100| > 1 / 100) : ds ≠ [] := by
  intro h
  subst h
  exact htp (by norm_num [totalPercentage])

/-! ## Claim theorems: the allocation percentage math -/

/-- C1: for every parent amount `A ≥ 0` and every rule whose applicable
destination percentages pass validation, `calculate_allocations`
returns one entry per applicable destination; every entry but the last
carries `A × pᵢ/100` truncated down to the quantum `10⁻¹²`
(`⌊(A×pᵢ/100)/q⌋·q`); the last entry carries `A` minus the sum of all
earlier entries; and the amounts sum to `A` exactly. -/
theorem C1_calculate_allocations_exact
    (A : ℚ) (config : List Dest) (l : List AllocEntry) (ds : List Dest)
    (hA : 0 ≤ A)
    (hp : ∀ d ∈ config, 0 ≤ d.percentage)
    (hds : applicableDestinations A config = .ok ds)
    (hok : calculate_allocations A config = .ok l) :
    l.length = ds.length ∧
    l.dropLast = ds.dropLast.map (fun d =>
      { destination_account_id := d.destination_account_id,
        percentage := d.percentage,
        amount := ⌊(A * d.percentage / 100) / quantum⌋ * quantum }) ∧
    (∀ h : l ≠ [], (l.getLast h).amount =
      A - (l.dropLast.map AllocEntry.amount).sum) ∧
    (l.map AllocEntry.amount).sum = A := by
  obtain ⟨htp, hl⟩ := calculate_allocations_ok_inv A config l hok ds hds
  have hne : ds ≠ [] := applicable_ne_nil_of_tp ds htp
  have hpds : ∀ d ∈ ds, 0 ≤ d.percentage :=
    applicableDestinations_percent_nonneg A config ds hds hp
  subst hl
  have heq := allocLoop_eq A ds 0 hne
  have hdl : (allocLoop A ds 0).dropLast = ds.dropLast.map fun d =>
      ({ destination_account_id := d.destination_account_id,
         percentage := d.percentage,
         amount := quantizeRoundDown (A * d.percentage / 100) } : AllocEntry) := by
    rw [heq, List.dropLast_concat]
  refine ⟨allocLoop_length A ds 0, ?_, ?_, ?_⟩
  · rw [hdl]
    refine List.map_congr_left fun d hd => ?_
    have hd' : d ∈ ds := (List.dropLast_sublist ds).subset hd
    have hx : (0 : ℚ) ≤ A * d.percentage / 100 := by
      have := hpds d hd'
      positivity
    rw [quantizeRoundDown_eq_floor _ hx]
  · intro hlne
    rw [hdl, getLast_of_eq heq hlne, getLast_append_singleton]
    have hmm : (List.map AllocEntry.amount (List.map (fun d =>
        ({ destination_account_id := d.destination_account_id,
           percentage := d.percentage,
           amount := quantizeRoundDown (A * d.percentage / 100) } : AllocEntry))
          ds.dropLast)) =
        ds.dropLast.map fun d => quantizeRoundDown (A * d.percentage / 100) := by
      rw [List.map_map]
      rfl
    rw [hmm, zero_add]
  · rw [allocLoop_sum A ds 0 hne, sub_zero]

/-- C1 witness: the 60/30/10 rule on a parent amount of 1000 produces
children 600, 300 and 100, which sum back to 1000 exactly. -/
theorem C1_witness :
    (([⟨"ops", 60, 600⟩, ⟨"dev", 30, 300⟩, ⟨"res", 10, 100⟩] :
      List AllocEntry).map AllocEntry.amount).sum = 1000 := by
  have h := C1_calculate_allocations_exact 1000
    [⟨"ops", 60, none⟩, ⟨"dev", 30, none⟩, ⟨"res", 10, none⟩]
    [⟨"ops", 60, 600⟩, ⟨"dev", 30, 300⟩, ⟨"res", 10, 100⟩]
    [⟨"ops", 60, none⟩, ⟨"dev", 30, none⟩, ⟨"res", 10, none⟩]
    (by norm_num)
    (by intro d hd; fin_cases hd <;> norm_num)
    rfl
    (by norm_num [calculate_allocations, applicableDestinations, evalCondition,
      totalPercentage, allocLoop, quantizeRoundDown, truncQ])
  exact h.2.2.2

/-- C2 counterexample: for the valid rule 33.33/33.33/33.34 and parent
amount `3·10⁻¹²`, the first two children truncate to zero and the last
child receives all of `3·10⁻¹²`, which is farther than one quantum from
its ideal share `3·10⁻¹² × 33.34%`; the claim's bound fails on the last
child. -/
theorem C2_counterexample :
    calculate_allocations (3 / 10 ^ 12)
        [⟨"a", 3333 / 100, none⟩, ⟨"b", 3333 / 100, none⟩,
         ⟨"c", 3334 / 100, none⟩] =
      .ok [⟨"a", 3333 / 100, 0⟩, ⟨"b", 3333 / 100, 0⟩,
           ⟨"c", 3334 / 100, 3 / 10 ^ 12⟩] ∧
    |(3 / 10 ^ 12 : ℚ) - (3 / 10 ^ 12) * (3334 / 100) / 100| > quantum := by
  constructor
  · norm_num [calculate_allocations, applicableDestinations, evalCondition,
      totalPercentage, allocLoop, quantizeRoundDown, truncQ]
  · have hv : (3 / 10 ^ 12 : ℚ) - (3 / 10 ^ 12) * (3334 / 100) / 100 =
        9999 / 5000000000000000 := by norm_num
    rw [hv, abs_of_nonneg (by norm_num)]
    norm_num [quantum]

/-- C2 (amended): every child except the last deviates from its ideal
share `A × pᵢ/100` by at most one quantum; the last child deviates by
at most `(N−1)` quanta plus `|A| · |Σp − 100|/100` (the tolerance
drift), the residue it absorbs. -/
theorem C2_amended_error_bounds
    (A : ℚ) (config : List Dest) (l : List AllocEntry) (ds : List Dest)
    (hA : 0 ≤ A)
    (hp : ∀ d ∈ config, 0 ≤ d.percentage)
    (hds : applicableDestinations A config = .ok ds)
    (hok : calculate_allocations A config = .ok l)
    (hlne : l ≠ []) :
    (∀ e ∈ l.dropLast, |e.amount - A * e.percentage / 100| ≤ quantum) ∧
    |(l.getLast hlne).amount - A * (l.getLast hlne).percentage / 100| ≤
      ((l.length - 1 : ℕ) : ℚ) * quantum +
        |A| * |(l.map AllocEntry.percentage).sum - 100| / 100 := by
  obtain ⟨htp, hl⟩ := calculate_allocations_ok_inv A config l hok ds hds
  have hne : ds ≠ [] := applicable_ne_nil_of_tp ds htp
  have hpds : ∀ d ∈ ds, 0 ≤ d.percentage :=
    applicableDestinations_percent_nonneg A config ds hds hp
  subst hl
  have heq := allocLoop_eq A ds 0 hne
  have hdl : (allocLoop A ds 0).dropLast = ds.dropLast.map fun d =>
      ({ destination_account_id := d.destination_account_id,
         percentage := d.percentage,
         amount := quantizeRoundDown (A * d.percentage / 100) } : AllocEntry) := by
    rw [heq, List.dropLast_concat]
  have hx : ∀ d ∈ ds, (0 : ℚ) ≤ A * d.percentage / 100 := by
    intro d hd
    have := hpds d hd
    positivity
  constructor
  · intro e he
    rw [hdl] at he
    obtain ⟨d, hd, rfl⟩ := List.mem_map.mp he
    have hd' : d ∈ ds := (List.dropLast_sublist ds).subset hd
    obtain ⟨h1, h2⟩ := quantizeRoundDown_error_bounds _ (hx d hd')
    rw [abs_sub_comm]
    rw [abs_of_nonneg h1]
    exact h2.le
  · -- decompose the last entry
    have hlast : (allocLoop A ds 0).getLast hlne =
        { destination_account_id := (ds.getLast hne).destination_account_id,
          percentage := (ds.getLast hne).percentage,
          amount := A - (0 + ((ds.dropLast.map fun d =>
            quantizeRoundDown (A * d.percentage / 100)).sum)) } := by
      rw [getLast_of_eq heq hlne, getLast_append_singleton]
    have hpct : ((allocLoop A ds 0).map AllocEntry.percentage).sum =
        totalPercentage ds := by
      rw [heq]
      unfold totalPercentage
      conv_rhs => rw [← List.dropLast_append_getLast hne]
      simp only [List.map_append, List.map_map, List.sum_append]
      rfl
    have hlen : ((allocLoop A ds 0).length - 1 : ℕ) = ds.dropLast.length := by
      rw [allocLoop_length A ds 0, List.length_dropLast]
    rw [hlast, hpct, hlen]
    -- set up the error sum
    set S : ℚ := (ds.dropLast.map fun d =>
      quantizeRoundDown (A * d.percentage / 100)).sum with hS
    set E : ℚ := (ds.dropLast.map fun d =>
      A * d.percentage / 100 - quantizeRoundDown (A * d.percentage / 100)).sum
      with hE
    have hE_nonneg : 0 ≤ E := by
      rw [hE]
      refine List.sum_nonneg fun x hxm => ?_
      obtain ⟨d, hd, rfl⟩ := List.mem_map.mp hxm
      exact (quantizeRoundDown_error_bounds _
        (hx d ((List.dropLast_sublist ds).subset hd))).1
    have hE_le : E ≤ (ds.dropLast.length : ℚ) * quantum := by
      rw [hE]
      have hb := List.sum_le_card_nsmul
        (ds.dropLast.map fun d =>
          A * d.percentage / 100 - quantizeRoundDown (A * d.percentage / 100))
        quantum
        (by
          intro x hxm
          obtain ⟨d, hd, rfl⟩ := List.mem_map.mp hxm
          exact (quantizeRoundDown_error_bounds _
            (hx d ((List.dropLast_sublist ds).subset hd))).2.le)
      rw [List.length_map] at hb
      simpa [nsmul_eq_mul] using hb
    have hsplit : totalPercentage ds =
        (ds.dropLast.map Dest.percentage).sum + (ds.getLast hne).percentage := by
      unfold totalPercentage
      conv_lhs => rw [← List.dropLast_append_getLast hne]
      simp
    have hSE : S = (ds.dropLast.map fun d => A * d.percentage / 100).sum - E := by
      rw [hE, list_sum_map_sub]
      ring
    have hshare : (ds.dropLast.map fun d => A * d.percentage / 100).sum =
        A * (ds.dropLast.map Dest.percentage).sum / 100 := by
      induction ds.dropLast with
      | nil => simp
      | cons d t ih => simp only [List.map_cons, List.sum_cons, ih]; ring
    have hkey : A - (0 + S) - A * (ds.getLast hne).percentage / 100 =
        A * (100 - totalPercentage ds) / 100 + E := by
      rw [hSE, hshare, hsplit]
      ring
    rw [hkey]
    have habs1 : |A * (100 - totalPercentage ds) / 100| =
        |A| * |totalPercentage ds - 100| / 100 := by
      rw [abs_div, abs_mul, abs_sub_comm]
      norm_num
    calc |A * (100 - totalPercentage ds) / 100 + E|
        ≤ |A * (100 - totalPercentage ds) / 100| + |E| := abs_add _ _
      _ = |A| * |totalPercentage ds - 100| / 100 + E := by
          rw [habs1, abs_of_nonneg hE_nonneg]
      _ ≤ |A| * |totalPercentage ds - 100| / 100 +
            (ds.dropLast.length : ℚ) * quantum := by linarith
      _ = (ds.dropLast.length : ℚ) * quantum +
            |A| * |totalPercentage ds - 100| / 100 := by ring

/-- C2 witness: for the 33.33/33.33/33.34 rule on a parent amount of
100, the last child 33.34 is within `2` quanta plus zero drift of its
ideal share. -/
theorem C2_amended_witness :
    |(3334 / 100 : ℚ) - 100 * (3334 / 100) / 100| ≤ 2 * quantum := by
  have h := C2_amended_error_bounds 100
    [⟨"a", 3333 / 100, none⟩, ⟨"b", 3333 / 100, none⟩, ⟨"c", 3334 / 100, none⟩]
    [⟨"a", 3333 / 100, 3333 / 100⟩, ⟨"b", 3333 / 100, 3333 / 100⟩,
     ⟨"c", 3334 / 100, 3334 / 100⟩]
    [⟨"a", 3333 / 100, none⟩, ⟨"b", 3333 / 100, none⟩, ⟨"c", 3334 / 100, none⟩]
    (by norm_num)
    (by intro d hd; fin_cases hd <;> norm_num)
    rfl
    (by norm_num [calculate_allocations, applicableDestinations, evalCondition,
      totalPercentage, allocLoop, quantizeRoundDown, truncQ])
    (by simp)
  have h2 := h.2
  norm_num [List.getLast, totalPercentage] at h2 ⊢
  linarith

/-- C3: with the applicable destinations in hand, the validation of
`calculate_allocations` raises the percentage `ValueError` exactly when
`|Σ pᵢ − 100| > 0.01`; inside the window the computation succeeds
(irrespective of whether the destination accounts exist — the function
never consults them); an empty configuration fails (its total is 0);
and the schema-level `AllocationConfig` validation rejects every
percentage outside `[0, 100]`. -/
theorem C3_validation_window
    (A : ℚ) (config ds : List Dest)
    (hds : applicableDestinations A config = .ok ds) :
    (|totalPercentage ds - 100| > 1 / 100 →
      calculate_allocations A config = .error (.percentSum (totalPercentage ds))) ∧
    (|totalPercentage ds - 100| ≤ 1 / 100 →
      calculate_allocations A config = .ok (allocLoop A ds 0)) ∧
    (∀ e, calculate_allocations A config = .error e →
      |totalPercentage ds - 100| > 1 / 100 ∧
        e = .percentSum (totalPercentage ds)) ∧
    (config = [] → calculate_allocations A config = .error (.percentSum 0)) ∧
    (∀ p : ℚ, p < 0 ∨ 100 < p → ¬ allocationConfigPercentageValid p) := by
  refine ⟨?_, ?_, ?_, ?_, ?_⟩
  · intro htp
    exact calculate_allocations_error A config ds hds htp
  · intro htp
    exact calculate_allocations_ok A config ds hds (not_lt.mpr htp)
  · intro e he
    by_cases htp : |totalPercentage ds - 100| > 1 / 100
    · refine ⟨htp, ?_⟩
      have := calculate_allocations_error A config ds hds htp
      rw [this] at he
      exact ((Except.error.injEq _ _).mp he).symm
    · have := calculate_allocations_ok A config ds hds htp
      rw [this] at he
      cases he
  · intro hcfg
    subst hcfg
    have hds0 : ds = [] := by
      have : (Except.ok [] : Except AllocError (List Dest)) = .ok ds := hds
      exact ((Except.ok.injEq _ _).mp this).symm
    subst hds0
    have htp : |totalPercentage ([] : List Dest) - 100| > 1 / 100 := by
      norm_num [totalPercentage]
    have := calculate_allocations_error A [] [] hds htp
    rw [this]
    norm_num [totalPercentage]
  · rintro p (hlt | hgt) ⟨h0, h100, _, _⟩
    · linarith
    · linarith

/-- C3 witness: a 60/40 rule validates (total 100, inside the window)
and the computation returns the two shares of a parent amount of 50. -/
theorem C3_witness :
    calculate_allocations 50 [⟨"a", 60, none⟩, ⟨"b", 40, none⟩] =
      .ok [⟨"a", 60, 30⟩, ⟨"b", 40, 20⟩] := by
  have h := (C3_validation_window 50
    [⟨"a", 60, none⟩, ⟨"b", 40, none⟩]
    [⟨"a", 60, none⟩, ⟨"b", 40, none⟩] rfl).2.1
    (by norm_num [totalPercentage])
  rw [h]
  norm_num [allocLoop, quantizeRoundDown, truncQ]

/-- C9: evaluation of the condition handling.  With the malformed
condition `"amount > abc"`, `calculate_allocations` does *not* silently
exclude the destination: the `decimal.InvalidOperation` raised by
`Decimal("abc")` is not caught by the `except (ValueError, IndexError)`
clause and escapes (first conjunct), although the code's own comment
says the destination should be skipped.  With a well-formed condition
`"amount > 20"` the destination *is* silently excluded for a parent
amount of 10 and the remaining 100% destination passes validation
(second conjunct), while the same rule fails validation for a parent
amount of 30, where both destinations apply and the total is 150%
(third conjunct). -/
theorem C9_condition_evaluation :
    calculate_allocations 10
        [⟨"d1", 50, some "amount > abc"⟩, ⟨"d2", 100, none⟩] =
      .error .conversionSyntax ∧
    calculate_allocations 10
        [⟨"d1", 50, some "amount > 20"⟩, ⟨"d2", 100, none⟩] =
      .ok [⟨"d2", 100, 10⟩] ∧
    calculate_allocations 30
        [⟨"d1", 50, some "amount > 20"⟩, ⟨"d2", 100, none⟩] =
      .error (.percentSum 150) := by
  have hc : parseCondition "amount > 20" =
      .cmp true (some ⟨false, 20, 0, 0, 0⟩) := by decide
  have he10 : evalCondition 10 (some "amount > 20") = .drop := by
    simp +decide only [evalCondition, hc]
    norm_num [DecLit.toRat]
  have he30 : evalCondition 30 (some "amount > 20") = .keep := by
    simp +decide only [evalCondition, hc]
    norm_num [DecLit.toRat]
  have hnone : ∀ B : ℚ, evalCondition B none = .keep := fun _ => rfl
  refine ⟨?_, ?_, ?_⟩
  · rfl
  · norm_num [calculate_allocations, applicableDestinations, he10, hnone,
      totalPercentage, allocLoop]
  · norm_num [calculate_allocations, applicableDestinations, he30, hnone,
      totalPercentage, allocLoop]

/-- Helper: a signed sum over tagged rows splits into the sum of the
rows with the first tag minus the sum of the rows with the second tag,
when every row carries one of the two tags. -/
theorem tag_split {α : Type} (t1 t2 : String) (hne : t1 ≠ t2)
    (tag : α → String) (amt : α → ℚ) :
    ∀ (L : List α), (∀ x ∈ L, tag x = t1 ∨ tag x = t2) →
      (L.map fun x => if tag x = t1 then amt x else -amt x).sum =
        ((L.filter fun x => tag x = t1).map amt).sum -
          ((L.filter fun x => tag x = t2).map amt).sum
  | [], _ => by simp
  | a :: L, hall => by
    have ih := tag_split t1 t2 hne tag amt L
      fun x hx => hall x (List.mem_cons_of_mem a hx)
    rcases hall a (List.mem_cons_self a L) with h1 | h2
    · have e1 : (decide (tag a = t1)) = true := by simp [h1]
      have e2 : (decide (tag a = t2)) = false := by simp [h1]; exact hne
      simp only [List.map_cons, List.sum_cons, List.filter_cons, e1, e2,
        if_pos h1, Bool.false_eq_true, eq_self_iff_true, ite_true, ite_false, ih]
      ring
    · have hno : ¬ (tag a = t1) := by rw [h2]; exact fun h => hne h.symm
      have e1 : (decide (tag a = t1)) = false := by simp [hno]
      have e2 : (decide (tag a = t2)) = true := by simp [h2]
      simp only [List.map_cons, List.sum_cons, List.filter_cons, e1, e2,
        if_neg hno, Bool.false_eq_true, eq_self_iff_true, ite_true, ite_false, ih]
      ring

/-- Helper: summing the signed lines transaction by transaction is the
same as summing over the flattened, filtered line list. -/
theorem sum_lines_flatten (p : TransactionLine → Bool) :
    ∀ (ts : List Transaction),
      (ts.map fun t => ((t.lines.filter p).map lineSigned).sum).sum =
        (((ts.map Transaction.lines).flatten.filter p).map lineSigned).sum
  | [] => by simp
  | t :: ts => by
    have ih := sum_lines_flatten p ts
    simp only [List.map_cons, List.sum_cons, List.flatten_cons,
      List.filter_append, List.map_append, List.sum_append, ih]

/-! ## Claim theorems: balances -/

/-- C4 counterexample: on the same economic data — an asset account
with a single posted `DEBIT` of 10 — the claim's debit-minus-credit
rule (implemented by `calculate_ledger_balance`) yields 10, but
`AllocationService.get_account_balance` returns −10: it sums
credits minus debits over *all* transactions with no status filter and
no account-type adjustment, so the claim is false of it. -/
theorem C4_counterexample :
    get_account_balance [⟨"acct1", "DEBIT", 10, "USD"⟩] "acct1" = -10 ∧
    calculate_ledger_balance [⟨"acct1", "ASSET"⟩]
        [⟨"POSTED", 0, [⟨"acct1", "DEBIT", 10⟩]⟩] "acct1" none = .ok 10 ∧
    (-10 : ℚ) ≠ 10 := by
  refine ⟨?_, ?_, by norm_num⟩
  · have h : get_account_balance [⟨"acct1", "DEBIT", 10, "USD"⟩] "acct1" =
        (List.map LTxn.amount ([] : List LTxn)).sum -
          (List.map LTxn.amount
            [(⟨"acct1", "DEBIT", 10, "USD"⟩ : LTxn)]).sum := rfl
    rw [h]
    norm_num
  · have h : calculate_ledger_balance [⟨"acct1", "ASSET"⟩]
        [⟨"POSTED", 0, [⟨"acct1", "DEBIT", 10⟩]⟩] "acct1" none =
        .ok (if ("ASSET" : String) = "LIABILITY" ∨ ("ASSET" : String) = "EQUITY"
              ∨ ("ASSET" : String) = "REVENUE"
            then -(((10 : ℚ) + 0) + 0) else (((10 : ℚ) + 0) + 0)) := rfl
    rw [h, if_neg (by decide)]
    norm_num

/-- C4 (amended): `ReconciliationService.calculate_ledger_balance`
satisfies the claim — it counts only `POSTED` transactions at or
before the as-of date, computes debits minus credits, and flips the
sign for liability/equity/revenue accounts (first conjunct, stated as
equality with the spec's formula `specBalance`); but
`AllocationService.get_account_balance` instead computes credits minus
debits over all of the account's transactions, with no status filter
and no account-type sign adjustment (second conjunct). -/
theorem C4_balance_amended
    (accounts : List Account) (txns : List Transaction)
    (account_id : String) (as_of : Option ℤ) (account : Account)
    (hfind : accounts.find? (fun a => decide (a.id = account_id)) = some account)
    (hlines : ∀ t ∈ txns, ∀ l ∈ t.lines,
      l.line_type = "DEBIT" ∨ l.line_type = "CREDIT")
    (all_txns : List LTxn)
    (htags : ∀ t ∈ all_txns,
      t.transaction_type = "DEBIT" ∨ t.transaction_type = "CREDIT") :
    calculate_ledger_balance accounts txns account_id as_of =
      .ok (specBalance account txns as_of) ∧
    get_account_balance all_txns account_id =
      ((all_txns.filter fun t => t.account_id = account_id).map fun t =>
        if t.transaction_type = "CREDIT" then t.amount else -t.amount).sum := by
  constructor
  · have hid : account.id = account_id := by
      have := List.find?_some hfind
      simpa using this
    unfold calculate_ledger_balance specBalance
    rw [hfind]
    set L := ((txns.filter (postedAsOf as_of)).map Transaction.lines).flatten.filter
      (fun l => decide (l.account_id = account.id)) with hL
    have hLall : ∀ l ∈ L, l.line_type = "DEBIT" ∨ l.line_type = "CREDIT" := by
      intro l hl
      rw [hL] at hl
      have hl2 := List.mem_of_mem_filter hl
      obtain ⟨lines, hlines2, hlmem⟩ := List.mem_flatten.mp hl2
      obtain ⟨t, ht, rfl⟩ := List.mem_map.mp hlines2
      exact hlines t (List.mem_of_mem_filter ht) l hlmem
    have hsplit := tag_split "DEBIT" "CREDIT" (by decide)
      TransactionLine.line_type TransactionLine.amount L hLall
    have hnet : ((txns.filter (postedAsOf as_of)).map fun t =>
        ((t.lines.filter fun l => decide (l.account_id = account_id)).map
          lineSigned).sum).sum = (L.map lineSigned).sum := by
      rw [hL, ← sum_lines_flatten]
      rw [hid]
    have hsigned : (L.map lineSigned).sum =
        (L.map fun x => if x.line_type = "DEBIT" then x.amount else -x.amount).sum := rfl
    rw [Except.ok.injEq]
    by_cases hty : account.account_type = "LIABILITY" ∨
        account.account_type = "EQUITY" ∨ account.account_type = "REVENUE"
    · rw [if_pos hty, if_pos hty, hnet, hsigned, hsplit]
      ring
    · rw [if_neg hty, if_neg hty, hnet, hsigned, hsplit]
  · unfold get_account_balance
    have hall2 : ∀ t ∈ (all_txns.filter fun t => decide (t.account_id = account_id)),
        t.transaction_type = "CREDIT" ∨ t.transaction_type = "DEBIT" := by
      intro t ht
      rcases htags t (List.mem_of_mem_filter ht) with h | h
      · exact Or.inr h
      · exact Or.inl h
    have hsplit := tag_split "CREDIT" "DEBIT" (by decide)
      LTxn.transaction_type LTxn.amount
      (all_txns.filter fun t => decide (t.account_id = account_id)) hall2
    rw [← hsplit]

/-- C4 witness: one posted debit of 100 and one posted credit of 30 on
an asset account give a ledger balance of 70, while
`get_account_balance` on the corresponding single-account rows yields
the sign-flipped −70 picture of the same account. -/
theorem C4_balance_witness :
    calculate_ledger_balance [⟨"A", "ASSET"⟩]
        [⟨"POSTED", 0, [⟨"A", "DEBIT", 100⟩]⟩,
         ⟨"POSTED", 1, [⟨"A", "CREDIT", 30⟩]⟩] "A" none =
      .ok (specBalance ⟨"A", "ASSET"⟩
        [⟨"POSTED", 0, [⟨"A", "DEBIT", 100⟩]⟩,
         ⟨"POSTED", 1, [⟨"A", "CREDIT", 30⟩]⟩] none) := by
  have h := C4_balance_amended [⟨"A", "ASSET"⟩]
    [⟨"POSTED", 0, [⟨"A", "DEBIT", 100⟩]⟩,
     ⟨"POSTED", 1, [⟨"A", "CREDIT", 30⟩]⟩] "A" none ⟨"A", "ASSET"⟩
    rfl
    (by
      intro t ht l hl
      fin_cases ht <;> simp_all)
    []
    (by intro t ht; cases ht)
  exact h.1

/-! ## Claim theorems: `execute_allocation` invariants -/

/-- C10: every ledger transaction created by `execute_allocation` — the
source `DEBIT` and each destination `CREDIT` — carries
`currency = "USD"` no matter the rule or the source account, and the
single `DEBIT` amount equals the sum of the `CREDIT` amounts of the
same batch. -/
theorem C10_execute_allocation_usd_balanced
    (A : ℚ) (source : String) (config : List Dest) (ts : List LTxn)
    (hok : execute_allocation A source config = .ok ts) :
    (∀ t ∈ ts, t.currency = "USD") ∧
    ∃ debit rest, ts = debit :: rest ∧
      debit.transaction_type = "DEBIT" ∧
      debit.account_id = source ∧
      debit.amount = A ∧
      (∀ t ∈ rest, t.transaction_type = "CREDIT") ∧
      (rest.map LTxn.amount).sum = debit.amount := by
  unfold execute_allocation at hok
  cases hcalc : calculate_allocations A config with
  | error e => rw [hcalc] at hok; cases hok
  | ok allocs =>
    rw [hcalc] at hok
    have hts : ts =
        ({ account_id := source
           transaction_type := "DEBIT"
           amount := A
           currency := "USD" } : LTxn) ::
          allocs.map (fun a =>
            ({ account_id := a.destination_account_id
               transaction_type := "CREDIT"
               amount := a.amount
               currency := "USD" } : LTxn)) :=
      ((Except.ok.injEq _ _).mp hok).symm
    cases hds : applicableDestinations A config with
    | error e =>
      exfalso
      unfold calculate_allocations at hcalc
      rw [hds] at hcalc
      cases hcalc
    | ok ds =>
      obtain ⟨htp, hl⟩ := calculate_allocations_ok_inv A config allocs hcalc ds hds
      have hne : ds ≠ [] := applicable_ne_nil_of_tp ds htp
      have hsum : (allocs.map AllocEntry.amount).sum = A := by
        rw [hl, allocLoop_sum A ds 0 hne, sub_zero]
      subst hts
      refine ⟨?_, _, _, rfl, rfl, rfl, rfl, ?_, ?_⟩
      · intro t ht
        rcases List.mem_cons.mp ht with rfl | hmem
        · rfl
        · obtain ⟨a, _, rfl⟩ := List.mem_map.mp hmem
          rfl
      · intro t ht
        obtain ⟨a, _, rfl⟩ := List.mem_map.mp ht
        rfl
      · rw [List.map_map]
        exact hsum

/-- C10 witness: a 60/40 allocation of 100 from account `src` produces
credits of 60 and 40, which sum to the 100 debited from `src`. -/
theorem C10_witness :
    (([⟨"a", "CREDIT", 60, "USD"⟩, ⟨"b", "CREDIT", 40, "USD"⟩] :
      List LTxn).map LTxn.amount).sum = (100 : ℚ) := by
  have h := C10_execute_allocation_usd_balanced 100 "src"
    [⟨"a", 60, none⟩, ⟨"b", 40, none⟩]
    [⟨"src", "DEBIT", 100, "USD"⟩, ⟨"a", "CREDIT", 60, "USD"⟩,
     ⟨"b", "CREDIT", 40, "USD"⟩]
    (by norm_num [execute_allocation, calculate_allocations,
      applicableDestinations, evalCondition, totalPercentage, allocLoop,
      quantizeRoundDown, truncQ])
  obtain ⟨-, debit, rest, hts, -, -, hamt, -, hsum⟩ := h
  have hd : debit = ⟨"src", "DEBIT", 100, "USD"⟩ :=
    (List.cons.injEq _ _ _ _ |>.mp hts.symm).1
  have hr : rest = [⟨"a", "CREDIT", 60, "USD"⟩, ⟨"b", "CREDIT", 40, "USD"⟩] :=
    (List.cons.injEq _ _ _ _ |>.mp hts.symm).2
  rw [← hr, hsum, hd]

/-! ## Claim theorems: obfuscation, audit ordering, allocation guards,
reconciliation -/

/-- C8 counterexample: the 8-character value `"secret12"` of the
sensitive field `password` is persisted as `"***"`, not as the
first-4/last-3 form `"secr...t12"` the claim requires for every string
value regardless of length. -/
theorem C8_counterexample :
    obfuscate_sensitive_data [("password", "secret12")] sensitiveFields =
      [("password", "***")] ∧
    ("***" : String) ≠ "secr" ++ "..." ++ "t12" := by
  exact ⟨rfl, by decide⟩

/-- C8 (amended): for a sensitive field with a non-empty value,
`obfuscate_sensitive_data` keeps the first 4 and last 3 characters
around the `"..."` sentinel only when the value is longer than 8
characters; a non-empty value of at most 8 characters is replaced
wholesale by `"***"`; non-sensitive fields and empty values are copied
unchanged. -/
theorem C8_obfuscation_amended (value field : String) :
    (8 < value.length →
      (obfuscateValue value).data =
        value.data.take 4 ++ "...".data ++
          value.data.drop (value.data.length - 3)) ∧
    (value.length ≤ 8 → obfuscateValue value = "***") ∧
    (field ∈ sensitiveFields → value ≠ "" →
      obfuscate_sensitive_data [(field, value)] sensitiveFields =
        [(field, obfuscateValue value)]) ∧
    (field ∉ sensitiveFields →
      obfuscate_sensitive_data [(field, value)] sensitiveFields =
        [(field, value)]) ∧
    obfuscate_sensitive_data [(field, "")] sensitiveFields = [(field, "")] := by
  refine ⟨?_, ?_, ?_, ?_, ?_⟩
  · intro h8
    unfold obfuscateValue
    rw [if_pos h8]
    simp [String.data_append]
  · intro h8
    unfold obfuscateValue
    rw [if_neg (not_lt.mpr h8)]
  · intro hmem hne
    unfold obfuscate_sensitive_data
    simp only [List.map_cons, List.map_nil]
    rw [if_pos ⟨hmem, hne⟩]
  · intro hnm
    unfold obfuscate_sensitive_data
    simp only [List.map_cons, List.map_nil]
    rw [if_neg fun hc => hnm hc.1]
  · unfold obfuscate_sensitive_data
    simp only [List.map_cons, List.map_nil]
    rw [if_neg fun hc => hc.2 rfl]

/-- C8 witness: the 13-character wallet address `"wallet1234567"` is
persisted as `"wall...567"`. -/
theorem C8_witness :
    obfuscate_sensitive_data [("wallet_address", "wallet1234567")]
      sensitiveFields = [("wallet_address", "wall...567")] := by
  have h := C8_obfuscation_amended "wallet1234567" "wallet_address"
  rw [h.2.2.1 (by decide) (by decide)]
  have hv : obfuscateValue "wallet1234567" = "wall...567" := rfl
  rw [hv]

/-- C5 counterexample: with the audit write failing, the route leaves a
state in which the business transaction is committed and durable while
no audit row exists (the route answers 500) — an observable state the
claim says cannot exist. -/
theorem C5_counterexample :
    (create_transaction ⟨[], []⟩ ⟨"acct", "CREDIT", 25, "USD", none⟩
        "TXN-1" none .fails).1 =
      ⟨[⟨"acct", "CREDIT", 25, "USD"⟩], []⟩ ∧
    (create_transaction ⟨[], []⟩ ⟨"acct", "CREDIT", 25, "USD", none⟩
        "TXN-1" none .fails).2 = some 500 := by
  exact ⟨rfl, rfl⟩

/-- C5 (amended): the audit row is written after the business commit
and in a separate unit of work.  When the audit write fails no audit
row is persisted, yet the committed business rows are exactly those of
a successful run (the business outcome does not depend on the audit
write); a 400 response (allocation failure) rolls everything back; and
on a fully successful run the audit row is appended after the business
rows are already committed. -/
theorem C5_audit_separate_commit
    (db : LedgerDB) (req : CreateReq) (txn_id : String)
    (rule : Option (List Dest)) :
    ((create_transaction db req txn_id rule .fails).1.audit_log =
      db.audit_log) ∧
    ((create_transaction db req txn_id rule .fails).1.transactions =
      (create_transaction db req txn_id rule .ok).1.transactions) ∧
    (∀ w, (create_transaction db req txn_id rule w).2 = some 400 →
      (create_transaction db req txn_id rule w).1 = db) ∧
    ((create_transaction db req txn_id rule .ok).2 = none →
      (create_transaction db req txn_id rule .ok).1.audit_log =
        db.audit_log ++ [⟨"transaction", txn_id, "CREATE"⟩]) := by
  refine ⟨?_, ?_, ?_, ?_⟩
  · unfold create_transaction
    by_cases hc : reqCompleted req = true
    · rw [if_pos hc]
      cases rule with
      | none => rfl
      | some config =>
        simp only [allocationStep]
        cases hex : execute_allocation req.amount req.account_id config with
        | error e => rfl
        | ok ts => rfl
    · rw [if_neg hc]
      rfl
  · unfold create_transaction
    by_cases hc : reqCompleted req = true
    · rw [if_pos hc, if_pos hc]
      cases rule with
      | none => rfl
      | some config =>
        simp only [allocationStep]
        cases hex : execute_allocation req.amount req.account_id config with
        | error e => rfl
        | ok ts => rfl
    · rw [if_neg hc, if_neg hc]
      rfl
  · intro w hw
    unfold create_transaction at hw ⊢
    by_cases hc : reqCompleted req = true
    · rw [if_pos hc] at hw ⊢
      cases rule with
      | none => rfl
      | some config =>
        simp only [allocationStep] at hw ⊢
        cases hex : execute_allocation req.amount req.account_id config with
        | error e => rfl
        | ok ts =>
          rw [hex] at hw
          cases w with
          | ok => simp [commitThenAudit] at hw
          | fails => simp [commitThenAudit] at hw
    · rw [if_neg hc] at hw ⊢
      cases w with
      | ok => simp [commitThenAudit] at hw
      | fails => simp [commitThenAudit] at hw
  · intro h
    unfold create_transaction at h ⊢
    by_cases hc : reqCompleted req = true
    · rw [if_pos hc] at h ⊢
      cases rule with
      | none => simp [allocationStep] at h
      | some config =>
        simp only [allocationStep] at h ⊢
        cases hex : execute_allocation req.amount req.account_id config with
        | error e =>
          rw [hex] at h
          simp at h
        | ok ts => rfl
    · rw [if_neg hc] at h ⊢
      rfl

/-- C5 witness: on an empty store, a successful run commits the
business row and then the audit row, so the final audit log holds
exactly the new entry. -/
theorem C5_witness :
    (create_transaction ⟨[], []⟩ ⟨"a", "CREDIT", 5, "USD", none⟩
        "T" none .ok).1.audit_log = [⟨"transaction", "T", "CREATE"⟩] := by
  have h := (C5_audit_separate_commit ⟨[], []⟩ ⟨"a", "CREDIT", 5, "USD", none⟩
    "T" none).2.2.2 rfl
  simpa using h

/-- C6 (modelled from the spec): applying allocation to a parent fails
with `VALIDATION` whenever the parent is not `COMPLETED`; it fails
whenever some transaction already points at the parent through
`parent_transaction_id` — and for a `COMPLETED` parent that failure is
the idempotence error, returned for every rule, i.e. before any child
is built; and a successful application implies the parent was
`COMPLETED`, no prior child existed, and every created child points at
the parent. -/
theorem C6_apply_allocation_guards
    (existing : List ChildTxn) (parent : ParentTxn)
    (rule : Option (List Dest)) :
    (parent.status ≠ "COMPLETED" →
      apply_allocation_to_transaction existing parent rule =
        .error .notCompleted) ∧
    (parent.status = "COMPLETED" →
      (∃ t ∈ existing, t.parent_transaction_id = some parent.id) →
      apply_allocation_to_transaction existing parent rule =
        .error .alreadyAllocated) ∧
    ((∃ t ∈ existing, t.parent_transaction_id = some parent.id) →
      ∃ e, apply_allocation_to_transaction existing parent rule = .error e) ∧
    (∀ children,
      apply_allocation_to_transaction existing parent rule = .ok children →
      parent.status = "COMPLETED" ∧
      (∀ t ∈ existing, t.parent_transaction_id ≠ some parent.id) ∧
      ∀ c ∈ children, c.parent_transaction_id = some parent.id) := by
  unfold apply_allocation_to_transaction
  by_cases hst : parent.status ≠ "COMPLETED"
  · rw [if_pos hst]
    refine ⟨fun _ => rfl, fun hc => absurd hc hst, fun _ => ⟨.notCompleted, rfl⟩,
      fun children h => by cases h⟩
  · rw [if_neg hst]
    have hst2 : parent.status = "COMPLETED" := not_not.mp hst
    by_cases hany : existing.any
        (fun t => decide (t.parent_transaction_id = some parent.id)) = true
    · rw [if_pos hany]
      refine ⟨fun h => absurd hst2 h, fun _ _ => rfl,
        fun _ => ⟨.alreadyAllocated, rfl⟩, fun children h => by cases h⟩
    · rw [if_neg hany]
      have hnochild : ∀ t ∈ existing,
          t.parent_transaction_id ≠ some parent.id := by
        intro t ht hcontra
        exact hany (List.any_eq_true.mpr ⟨t, ht, decide_eq_true hcontra⟩)
      refine ⟨fun h => absurd hst2 h, ?_, ?_, ?_⟩
      · intro _ hex
        obtain ⟨t, ht, hp⟩ := hex
        exact absurd hp (hnochild t ht)
      · intro hex
        obtain ⟨t, ht, hp⟩ := hex
        exact absurd hp (hnochild t ht)
      · intro children h
        cases rule with
        | none => cases h
        | some config =>
          simp only [buildAllocationChildren] at h
          cases hcalc : calculate_allocations parent.amount config with
          | error e => rw [hcalc] at h; cases h
          | ok allocs =>
            rw [hcalc] at h
            have hch : children = allocs.map fun a =>
                ({ parent_transaction_id := some parent.id
                   account_id := a.destination_account_id
                   amount := a.amount } : ChildTxn) :=
              ((Except.ok.injEq _ _).mp h).symm
            subst hch
            refine ⟨hst2, hnochild, ?_⟩
            intro c hcm
            obtain ⟨a, -, rfl⟩ := List.mem_map.mp hcm
            rfl

/-- C6 witness: a second allocation attempt against a `COMPLETED`
parent that already has one child fails with the idempotence error and
creates nothing. -/
theorem C6_witness :
    apply_allocation_to_transaction [⟨some "P1", "ops", 5⟩]
      ⟨"P1", 100, "COMPLETED"⟩ (some [⟨"ops", 100, none⟩]) =
      .error .alreadyAllocated :=
  (C6_apply_allocation_guards [⟨some "P1", "ops", 5⟩]
    ⟨"P1", 100, "COMPLETED"⟩ (some [⟨"ops", 100, none⟩])).2.1 rfl
    ⟨⟨some "P1", "ops", 5⟩, by simp, rfl⟩

/-- C7 (modelled from the spec): a successfully created reconciliation
log snapshots the internal balance computed by the Balance Calculator
at creation time, records `discrepancy = external − internal`, and is
marked resolved exactly when `|discrepancy| < ε` with `ε = 10⁻⁶`. -/
theorem C7_create_log_discrepancy
    (accounts : List Account) (txns : List Transaction)
    (account_id : String) (X : ℚ) (currency : String)
    (log : ReconciliationLogRec)
    (hok : create_log accounts txns account_id X currency = .ok log) :
    ∃ internal,
      calculate_ledger_balance accounts txns account_id none =
        .ok internal ∧
      log.internal_balance = internal ∧
      log.external_balance = X ∧
      log.discrepancy = X - internal ∧
      (log.resolved = true ↔ |X - internal| < reconEpsilon) := by
  unfold create_log at hok
  cases hbal : calculate_ledger_balance accounts txns account_id none with
  | error e => rw [hbal] at hok; cases hok
  | ok internal =>
    rw [hbal] at hok
    have hlog := ((Except.ok.injEq _ _).mp hok).symm
    subst hlog
    exact ⟨internal, rfl, rfl, rfl, rfl, by simp [decide_eq_true_eq]⟩

/-- C7 witness: for an account whose posted ledger holds a single
debit of 950 and a reported external balance of 1000, the created log
carries discrepancy 50 and is not resolved (50 is not below `10⁻⁶`). -/
theorem C7_witness :
    ¬ ((⟨"A", 1000, 950, 50, "USD", false⟩ :
      ReconciliationLogRec).resolved = true) := by
  have hbal : calculate_ledger_balance [⟨"A", "ASSET"⟩]
      [⟨"POSTED", 0, [⟨"A", "DEBIT", 950⟩]⟩] "A" none = .ok 950 := by
    have h0 : calculate_ledger_balance [⟨"A", "ASSET"⟩]
        [⟨"POSTED", 0, [⟨"A", "DEBIT", 950⟩]⟩] "A" none =
        .ok (if ("ASSET" : String) = "LIABILITY" ∨
              ("ASSET" : String) = "EQUITY" ∨ ("ASSET" : String) = "REVENUE"
            then -(((950 : ℚ) + 0) + 0) else (((950 : ℚ) + 0) + 0)) := rfl
    rw [h0, if_neg (by decide)]
    norm_num
  have hok : create_log [⟨"A", "ASSET"⟩]
      [⟨"POSTED", 0, [⟨"A", "DEBIT", 950⟩]⟩] "A" 1000 "USD" =
      .ok ⟨"A", 1000, 950, 50, "USD", false⟩ := by
    unfold create_log
    rw [hbal]
    have hr : (decide (|(1000 : ℚ) - 950| < reconEpsilon)) = false :=
      decide_eq_false (by norm_num [reconEpsilon])
    have hd : (1000 - 950 : ℚ) = 50 := by norm_num
    show Except.ok
        ({ logical_account_id := "A", external_balance := 1000,
           internal_balance := 950, discrepancy := 1000 - 950,
           currency := "USD",
           resolved := decide (|(1000 : ℚ) - 950| < reconEpsilon) } :
          ReconciliationLogRec) =
      Except.ok (⟨"A", 1000, 950, 50, "USD", false⟩ : ReconciliationLogRec)
    rw [hr, hd]
  have h := C7_create_log_discrepancy [⟨"A", "ASSET"⟩]
    [⟨"POSTED", 0, [⟨"A", "DEBIT", 950⟩]⟩] "A" 1000 "USD"
    ⟨"A", 1000, 950, 50, "USD", false⟩ hok
  obtain ⟨internal, hbal2, hib, -, -, hres⟩ := h
  have hint : (950 : ℚ) = internal := hib
  rw [hres, ← hint]
  norm_num [reconEpsilon]

end Ledger

